import Mathlib

/-!
# Verification of `scripts/eval_before_after.py` (mboxMinerva)

Shallow embedding of the perplexity before/after evaluation script.
Python floats are modelled as exact rationals (every finite float value is a
rational number); perplexity values, which pass through the exponential, are
modelled in the reals.  Fallible operations (Python division, which raises
ZeroDivisionError on a zero denominator) return `Option`.
-/

namespace EvalBeforeAfter

/-! ## Data model: JSON records and the text renderer (source line 43) -/

/-- A JSON field value as it can appear for `subject`/`body`: either JSON
null (Python `None`) or a string. -/
inductive PyVal where
  | null : PyVal
  | str : String → PyVal
deriving DecidableEq, Repr

/-- One JSONL test record.  `none` means the key is absent from the mapping;
`some v` means the key is present and bound to `v` (possibly JSON null). -/
structure EmailRecord where
  subject : Option PyVal
  body : Option PyVal
deriving DecidableEq, Repr

/-- Python `d.get(key, '')`: the bound value when the key is present
(even when that value is `None`), and the default `''` when absent. -/
def pyGet (v : Option PyVal) : PyVal :=
  v.getD (PyVal.str "")

/-- Python string interpolation of a value inside an f-string:
`None` renders as the literal text `None`, a string renders as itself. -/
def pyStr : PyVal → String
  | PyVal.null => "None"
  | PyVal.str s => s

/-- Source line 43: the evaluation text for one record, rendered by the fixed
two-field template: a `Subject:` line, a blank line, then the body. -/
def render (d : EmailRecord) : String :=
  "Subject: " ++ pyStr (pyGet d.subject) ++ "\n\n" ++ pyStr (pyGet d.body)

/-! ## Batching policy (source lines 39-40) -/

/-- Python `range(0, stop, step)` for `step ≥ 1`: the values
`0, step, 2*step, ...` strictly below `stop`; there are
`⌈stop/step⌉ = (stop + step - 1) / step` of them. -/
def pyRange (stop step : ℕ) : List ℕ :=
  (List.range ((stop + step - 1) / step)).map (fun k => k * step)

/-- Source lines 39-40: `for i in range(0, len(data), batch_size)` with
`batch = data[i:i+batch_size]`; the Python slice `data[i:i+bs]` is
`(data.drop i).take bs`. -/
def batches {α : Type} (data : List α) (batch_size : ℕ) : List (List α) :=
  (pyRange data.length batch_size).map (fun i => (data.drop i).take batch_size)

/-! ## Perplexity aggregator (source lines 35-36, 56-63) -/

/-- A per-batch score result as produced by the scorer call (source lines
56-57): the batch mean loss (`outputs.loss.item()`, a float modelled in ℚ)
and the batch token count (`attention_mask.sum().item()`, an integer). -/
abbrev ScoreResult := ℚ × ℕ

/-- Source lines 35-36 and 59-60: the running totals
`total_loss += loss * num_tokens` and `total_tokens += num_tokens`,
starting from `total_loss = 0`, `total_tokens = 0`. -/
def aggregate (results : List ScoreResult) : ℚ × ℕ :=
  results.foldl (fun acc r => (acc.1 + r.1 * (r.2 : ℚ), acc.2 + r.2)) (0, 0)

/-- Source line 62: `avg_loss = total_loss / total_tokens`.  Python division
raises ZeroDivisionError when `total_tokens = 0`, so the result is `Option`. -/
def avg_loss (results : List ScoreResult) : Option ℚ :=
  let t := aggregate results
  if t.2 = 0 then none else some (t.1 / (t.2 : ℚ))

/-- Source lines 62-63: the aggregated perplexity `np.exp(avg_loss)`,
undefined (a raised error) when no tokens were accumulated. -/
noncomputable def compute_perplexity (results : List ScoreResult) : Option ℝ :=
  Option.map (fun q : ℚ => Real.exp (q : ℝ)) (avg_loss results)

/-! ## Token counting (source line 57) versus tokens receiving a loss term -/

/-- Source line 57 in terms of per-sequence non-padding token counts `lens`:
`attention_mask.sum()` is the total number of non-padding tokens of the
batch, the first token of each sequence included. -/
def num_tokens (lens : List ℕ) : ℕ :=
  lens.sum

/-- Modelled from the spec: the number of tokens that actually receive a loss
term under the external causal language-modeling loss, which the spec
describes as conventionally dropping one token per sequence for the shift
(design note on the source's `attention_mask.sum()` weighting); this count is
not computed anywhere in the repository code. -/
def loss_term_tokens (lens : List ℕ) : ℕ :=
  (lens.map (fun n => n - 1)).sum

/-! ## Comparator (source `main`, lines 85-100) -/

/-- The command line arguments of `main` (source lines 69-73). -/
structure Args where
  base_model : String
  finetuned_model : String
  test_data : String
  batch_size : ℕ
  max_length : ℕ
deriving DecidableEq, Repr

/-- One invocation of `compute_perplexity` as issued by `main`: which model
checkpoint is scored, which tokenizer is passed, and the shared data and
run parameters. -/
structure ScoreCall where
  model_path : String
  tokenizer_path : String
  data : List EmailRecord
  batch_size : ℕ
  max_length : ℕ
deriving DecidableEq, Repr

/-- Source lines 85-96: `main` loads one tokenizer from the base model path
(line 85) and issues the two `compute_perplexity` calls (lines 87 and 96)
with that tokenizer, the one loaded record list and the one pair of run
parameters; only the model checkpoint differs. -/
def mainCalls (args : Args) (test_data : List EmailRecord) : ScoreCall × ScoreCall :=
  let tokenizer := args.base_model
  ({ model_path := args.base_model, tokenizer_path := tokenizer,
     data := test_data, batch_size := args.batch_size, max_length := args.max_length },
   { model_path := args.finetuned_model, tokenizer_path := tokenizer,
     data := test_data, batch_size := args.batch_size, max_length := args.max_length })

/-- Source line 100: the relative improvement
`((base_ppl - finetuned_ppl) / base_ppl) * 100` (floats modelled in ℚ). -/
def improvement (base_ppl finetuned_ppl : ℚ) : ℚ :=
  ((base_ppl - finetuned_ppl) / base_ppl) * 100

/-! ## Resource trace of `main` (source lines 85-96) -/

/-- The resource-relevant statements of `main`, in program order
(source lines 85, 86, 87, 90, 91, 95, 96). -/
inductive Ev where
  | loadTokenizer : Ev
  | loadBase : Ev
  | evalBase : Ev
  | delBase : Ev
  | emptyCache : Ev
  | loadFinetuned : Ev
  | evalFinetuned : Ev
deriving DecidableEq, BEq, Repr

/-- The straight-line event trace of one `main` run, in source order. -/
def mainTrace : List Ev :=
  [Ev.loadTokenizer, Ev.loadBase, Ev.evalBase, Ev.delBase, Ev.emptyCache,
   Ev.loadFinetuned, Ev.evalFinetuned]

/-- Which model objects are resident after a prefix of the trace:
`loadBase` makes the base model resident, `del base_model` (line 90) releases
it, `loadFinetuned` makes the fine-tuned model resident.  The pair is
(base resident, fine-tuned resident). -/
def resident (t : List Ev) : Bool × Bool :=
  t.foldl
    (fun st e =>
      match e with
      | Ev.loadBase => (true, st.2)
      | Ev.delBase => (false, st.2)
      | Ev.loadFinetuned => (st.1, true)
      | _ => st)
    (false, false)

/-! ## Helper lemmas -/

/-- Unfolding the running-total fold of `aggregate` from an arbitrary start. -/
lemma aggregate_foldl (results : List ScoreResult) (a : ℚ) (b : ℕ) :
    results.foldl (fun acc r => (acc.1 + r.1 * (r.2 : ℚ), acc.2 + r.2)) (a, b) =
      (a + (results.map (fun r => r.1 * (r.2 : ℚ))).sum, b + (results.map Prod.snd).sum) := by
  induction results generalizing a b with
  | nil => simp
  | cons r rs ih => simp [ih, add_assoc]

/-- The aggregator's totals are the weighted loss sum and the token sum. -/
lemma aggregate_eq (results : List ScoreResult) :
    aggregate results =
      ((results.map (fun r => r.1 * (r.2 : ℚ))).sum, (results.map Prod.snd).sum) := by
  simpa using aggregate_foldl results 0 0

/-- `batches` written as one map over the batch indices `0, ..., cnt-1`. -/
lemma batches_eq_map_range {α : Type} (data : List α) (bs : ℕ) :
    batches data bs =
      (List.range ((data.length + bs - 1) / bs)).map
        (fun k => (data.drop (k * bs)).take bs) := by
  simp [batches, pyRange, List.map_map, Function.comp]

/-- The batch at index `i`, via `getD`. -/
lemma batches_getD {α : Type} (data : List α) (bs i : ℕ)
    (h : i < (data.length + bs - 1) / bs) :
    (batches data bs).getD i [] = (data.drop (i * bs)).take bs := by
  rw [batches_eq_map_range, List.getD_eq_getElem?_getD, List.getElem?_map,
    List.getElem?_range h]
  rfl

/-- The total length covered by all `⌈N/bs⌉` batches is at least `N`. -/
lemma cnt_mul_ge (N bs : ℕ) (hb : 1 ≤ bs) : N ≤ ((N + bs - 1) / bs) * bs := by
  have h1 := Nat.div_add_mod (N + bs - 1) bs
  have h2 : (N + bs - 1) % bs < bs := Nat.mod_lt _ (by omega)
  rw [mul_comm]
  revert h1 h2
  generalize bs * ((N + bs - 1) / bs) = t
  generalize (N + bs - 1) % bs = r
  intro h1 h2
  omega

/-- Every batch except possibly the last starts at least `bs` elements
before the end of the data. -/
lemma batch_full (N bs i : ℕ) (hb : 1 ≤ bs) (h : i + 1 < (N + bs - 1) / bs) :
    i * bs + bs ≤ N := by
  have h2 : i + 2 ≤ (N + bs - 1) / bs := h
  have h3 : (i + 2) * bs ≤ N + bs - 1 := (Nat.le_div_iff_mul_le (by omega)).mp h2
  have h4 : (i + 2) * bs = i * bs + 2 * bs := by ring
  rw [h4] at h3
  revert h3
  generalize i * bs = t
  intro h3
  omega

/-- Batching an empty sequence produces no batches. -/
lemma batches_nil {α : Type} (bs : ℕ) (hb : 1 ≤ bs) : batches ([] : List α) bs = [] := by
  rw [batches_eq_map_range]
  have h0 : ((List.length ([] : List α)) + bs - 1) / bs = 0 := by
    simp only [List.length_nil]
    exact Nat.div_eq_of_lt (by omega)
  rw [h0]
  rfl

/-- Batching a nonempty sequence peels off the first `bs` elements. -/
lemma batches_cons_drop {α : Type} (bs : ℕ) (hb : 1 ≤ bs) (data : List α)
    (hd : data ≠ []) :
    batches data bs = data.take bs :: batches (data.drop bs) bs := by
  rw [batches_eq_map_range, batches_eq_map_range]
  have hN : 1 ≤ data.length := List.length_pos.mpr hd
  have hcnt : (data.length + bs - 1) / bs = ((data.drop bs).length + bs - 1) / bs + 1 := by
    rw [List.length_drop]
    have e1 : data.length + bs - 1 = (data.length - 1) + bs := by omega
    rw [e1, Nat.add_div_right _ (by omega)]
    congr 1
    rcases le_or_lt bs data.length with h | h
    · congr 1
      omega
    · have e2 : data.length - bs = 0 := by omega
      rw [e2, Nat.div_eq_of_lt (by omega), Nat.div_eq_of_lt (by omega)]
  rw [hcnt, List.range_succ_eq_map, List.map_cons, List.map_map]
  congr 1
  · simp
  · refine List.map_congr_left ?_
    intro j hj
    simp only [Function.comp]
    rw [List.drop_drop, Nat.succ_mul, Nat.add_comm (j * bs) bs]

/-- Concatenating the batches in order reconstructs the data
(induction on a length bound). -/
lemma batches_flatten_aux {α : Type} (bs : ℕ) (hb : 1 ≤ bs) :
    ∀ (n : ℕ) (data : List α), data.length ≤ n → (batches data bs).flatten = data := by
  intro n
  induction n with
  | zero =>
    intro data h
    have hdata : data = [] := List.length_eq_zero.mp (Nat.le_zero.mp h)
    subst hdata
    rw [batches_nil bs hb]
    rfl
  | succ n ih =>
    intro data h
    rcases eq_or_ne data [] with rfl | hd
    · rw [batches_nil bs hb]
      rfl
    · rw [batches_cons_drop bs hb data hd, List.flatten_cons,
        ih (data.drop bs) (by rw [List.length_drop]; omega)]
      exact List.take_append_drop bs data

/-! ## Claims -/

/-- Claim C1: for every nonempty sequence of per-batch score results with
positive token counts, the aggregated perplexity equals
exp((sum of loss_i * token_count_i) / (sum of token_count_i)); in particular
the batches (2, 10) and (4, 30) yield exp(7/2) and the single batch (0, 5)
yields exactly 1. -/
theorem claim1_weighted_perplexity :
    (∀ results : List ScoreResult, results ≠ [] → (∀ r ∈ results, 0 < r.2) →
      compute_perplexity results =
        some (Real.exp
          ((((results.map (fun r => r.1 * (r.2 : ℚ))).sum : ℚ) : ℝ) /
            ((((results.map Prod.snd).sum : ℕ) : ℚ) : ℝ)))) ∧
    compute_perplexity [((2 : ℚ), (10 : ℕ)), (4, 30)] = some (Real.exp (7 / 2)) ∧
    compute_perplexity [((0 : ℚ), (5 : ℕ))] = some 1 := by
  have key : ∀ results : List ScoreResult, results ≠ [] → (∀ r ∈ results, 0 < r.2) →
      compute_perplexity results =
        some (Real.exp
          ((((results.map (fun r => r.1 * (r.2 : ℚ))).sum : ℚ) : ℝ) /
            ((((results.map Prod.snd).sum : ℕ) : ℚ) : ℝ))) := by
    intro results hne hpos
    have htok : 0 < (results.map Prod.snd).sum :=
      List.sum_pos _ (by intro x hx; obtain ⟨r, hr, rfl⟩ := List.mem_map.mp hx; exact hpos r hr)
        (by simpa using hne)
    have htok' : (results.map Prod.snd).sum ≠ 0 := Nat.pos_iff_ne_zero.mp htok
    have havg : avg_loss results =
        some ((results.map (fun r => r.1 * (r.2 : ℚ))).sum /
          (((results.map Prod.snd).sum : ℕ) : ℚ)) := by
      simp only [avg_loss, aggregate_eq]
      rw [if_neg htok']
    simp only [compute_perplexity, havg, Option.map_some']
    congr 1
    push_cast
    ring
  refine ⟨key, ?_, ?_⟩
  · rw [key [((2 : ℚ), (10 : ℕ)), (4, 30)] (by simp) (by norm_num)]
    norm_num
  · rw [key [((0 : ℚ), (5 : ℕ))] (by simp) (by norm_num)]
    norm_num

/-- Witness for C1 at the concrete input [(2, 10), (4, 30)]. -/
theorem claim1_witness :
    ([((2 : ℚ), (10 : ℕ)), (4, 30)] ≠ ([] : List ScoreResult) ∧
      (∀ r ∈ [((2 : ℚ), (10 : ℕ)), (4, 30)], 0 < r.2)) ∧
    compute_perplexity [((2 : ℚ), (10 : ℕ)), (4, 30)] =
      some (Real.exp
        (((([((2 : ℚ), (10 : ℕ)), (4, 30)].map (fun r => r.1 * (r.2 : ℚ))).sum : ℚ) : ℝ) /
          (((([((2 : ℚ), (10 : ℕ)), (4, 30)].map Prod.snd).sum : ℕ) : ℚ) : ℝ))) :=
  ⟨⟨by simp, by norm_num⟩,
    claim1_weighted_perplexity.1 [((2 : ℚ), (10 : ℕ)), (4, 30)] (by simp) (by norm_num)⟩

/-- Claim C2: for every batch_size ≥ 1 and input sequence, batching produces
exactly ⌈N/batch_size⌉ batches, all but the last of size exactly batch_size,
the last of size N - batch_size * (⌈N/batch_size⌉ - 1); concatenating the
batches reconstructs the input, and re-running yields an identical
partition. -/
theorem claim2_batching (α : Type) (data : List α) (bs : ℕ) (hb : 1 ≤ bs) :
    (batches data bs).length = (data.length + bs - 1) / bs ∧
    (∀ i, i + 1 < (batches data bs).length →
      ((batches data bs).getD i []).length = bs) ∧
    (0 < (batches data bs).length →
      ((batches data bs).getD ((batches data bs).length - 1) []).length =
        data.length - bs * ((batches data bs).length - 1)) ∧
    (batches data bs).flatten = data ∧
    batches data bs = batches data bs := by
  have hlen : (batches data bs).length = (data.length + bs - 1) / bs := by
    rw [batches_eq_map_range]
    simp
  refine ⟨hlen, ?_, ?_, batches_flatten_aux bs hb data.length data le_rfl, rfl⟩
  · intro i hi
    rw [hlen] at hi
    rw [batches_getD data bs i (by omega)]
    rw [List.length_take, List.length_drop]
    have hfull : i * bs + bs ≤ data.length := batch_full data.length bs i hb hi
    revert hfull
    generalize i * bs = t
    intro hfull
    omega
  · intro hpos
    rw [hlen] at hpos ⊢
    obtain ⟨m, hm⟩ : ∃ m, (data.length + bs - 1) / bs = m + 1 :=
      ⟨(data.length + bs - 1) / bs - 1, by omega⟩
    rw [hm]
    simp only [Nat.add_sub_cancel]
    rw [batches_getD data bs m (by rw [hm]; exact Nat.lt_succ_self m)]
    rw [List.length_take, List.length_drop]
    have h1 : data.length ≤ ((data.length + bs - 1) / bs) * bs := cnt_mul_ge data.length bs hb
    rw [hm] at h1
    have h2 : (m + 1) * bs = m * bs + bs := by ring
    rw [h2] at h1
    rw [mul_comm bs m]
    revert h1
    generalize m * bs = t
    intro h1
    omega

/-- Witness for C2 at the concrete input [0, 1, 2, 3, 4] with batch size 2. -/
theorem claim2_witness :
    1 ≤ 2 ∧
    ((batches ([0, 1, 2, 3, 4] : List ℕ) 2).length =
        (([0, 1, 2, 3, 4] : List ℕ).length + 2 - 1) / 2 ∧
      (∀ i, i + 1 < (batches ([0, 1, 2, 3, 4] : List ℕ) 2).length →
        ((batches ([0, 1, 2, 3, 4] : List ℕ) 2).getD i []).length = 2) ∧
      (0 < (batches ([0, 1, 2, 3, 4] : List ℕ) 2).length →
        ((batches ([0, 1, 2, 3, 4] : List ℕ) 2).getD
            ((batches ([0, 1, 2, 3, 4] : List ℕ) 2).length - 1) []).length =
          ([0, 1, 2, 3, 4] : List ℕ).length -
            2 * ((batches ([0, 1, 2, 3, 4] : List ℕ) 2).length - 1)) ∧
      (batches ([0, 1, 2, 3, 4] : List ℕ) 2).flatten = [0, 1, 2, 3, 4] ∧
      batches ([0, 1, 2, 3, 4] : List ℕ) 2 = batches ([0, 1, 2, 3, 4] : List ℕ) 2) :=
  ⟨by norm_num, claim2_batching ℕ [0, 1, 2, 3, 4] 2 (by norm_num)⟩

/-- Claim C3: when the accumulated token total is zero (for instance on an
empty input), the perplexity computation fails (raises) and never returns a
numeric value. -/
theorem claim3_empty_finalize_fails :
    (∀ results : List ScoreResult, (aggregate results).2 = 0 →
      compute_perplexity results = none ∧ ∀ x : ℝ, compute_perplexity results ≠ some x) ∧
    compute_perplexity ([] : List ScoreResult) = none := by
  have key : ∀ results : List ScoreResult, (aggregate results).2 = 0 →
      compute_perplexity results = none ∧ ∀ x : ℝ, compute_perplexity results ≠ some x := by
    intro results h
    have hnone : avg_loss results = none := by simp [avg_loss, h]
    exact ⟨by simp [compute_perplexity, hnone], by simp [compute_perplexity, hnone]⟩
  exact ⟨key, (key [] rfl).1⟩

/-- Witness for C3 at the empty result list. -/
theorem claim3_witness :
    (aggregate ([] : List ScoreResult)).2 = 0 ∧
      compute_perplexity ([] : List ScoreResult) = none :=
  ⟨rfl, (claim3_empty_finalize_fails.1 [] rfl).1⟩

/-- Claim C4: the reported relative improvement is
(base - finetuned) / base * 100, it is negative exactly when the fine-tuned
perplexity exceeds the base perplexity, and concretely (40, 30) gives 25
while (30, 40) gives -100/3 = -33.33... . -/
theorem claim4_relative_improvement :
    (∀ b f : ℚ, 0 < b → 0 < f →
      improvement b f = (b - f) / b * 100 ∧ (improvement b f < 0 ↔ b < f)) ∧
    improvement 40 30 = 25 ∧
    improvement 30 40 = -100 / 3 := by
  refine ⟨?_, by norm_num [improvement], by norm_num [improvement]⟩
  intro b f hb hf
  refine ⟨rfl, ?_⟩
  rw [improvement, div_mul_eq_mul_div, div_neg_iff]
  constructor
  · rintro (⟨h1, h2⟩ | ⟨h1, h2⟩)
    · exact absurd hb (not_lt.mpr (le_of_lt h2))
    · nlinarith
  · intro h
    exact Or.inr ⟨by nlinarith, hb⟩

/-- Witness for C4 at base 40, fine-tuned 30. -/
theorem claim4_witness :
    (0 : ℚ) < 40 ∧ (0 : ℚ) < 30 ∧
    (improvement 40 30 = (40 - 30) / 40 * 100 ∧ (improvement 40 30 < 0 ↔ (40 : ℚ) < 30)) :=
  ⟨by norm_num, by norm_num,
    claim4_relative_improvement.1 40 30 (by norm_num) (by norm_num)⟩

/-- Claim C5: rendering is total and deterministic for any subset of
string-valued `subject`/`body` fields, and produces the fixed template:
the subject line, a blank line, then the body (missing fields as empty). -/
theorem claim5_render_total_template :
    ∀ s b : Option String,
      render (EmailRecord.mk (s.map PyVal.str) (b.map PyVal.str)) =
        "Subject: " ++ s.getD "" ++ "\n\n" ++ b.getD "" ∧
      render (EmailRecord.mk (s.map PyVal.str) (b.map PyVal.str)) =
        render (EmailRecord.mk (s.map PyVal.str) (b.map PyVal.str)) := by
  intro s b
  refine ⟨?_, rfl⟩
  cases s <;> cases b <;> simp [render, pyGet, pyStr]

/-- Claim C6 counterexample: for a batch of one sequence of 2 non-padding
tokens, the code's weight (`attention_mask.sum()` = 2) differs from the
number of tokens receiving a loss term under the causal shift (= 1). -/
theorem claim6_counterexample :
    num_tokens [2] ≠ loss_term_tokens [2] := by
  decide

/-- Claim C6 (amended): the weight used is the total count of non-padding
tokens, which exceeds the number of tokens receiving a loss term by exactly
one per (nonempty) sequence in the batch. -/
theorem claim6_amended_weight_counts_all_nonpad (lens : List ℕ)
    (h : ∀ n ∈ lens, 1 ≤ n) :
    num_tokens lens = loss_term_tokens lens + lens.length := by
  induction lens with
  | nil => rfl
  | cons n ns ih =>
    have h1 : 1 ≤ n := h n (by simp)
    have h2 : ∀ m ∈ ns, 1 ≤ m := fun m hm => h m (by simp [hm])
    have ih2 := ih h2
    simp only [num_tokens, loss_term_tokens, List.map_cons, List.sum_cons,
      List.length_cons] at ih2 ⊢
    omega

/-- Witness for the amended C6 at the batch with sequence lengths [2, 3]. -/
theorem claim6_witness :
    (∀ n ∈ [2, 3], 1 ≤ n) ∧
      num_tokens [2, 3] = loss_term_tokens [2, 3] + [2, 3].length :=
  ⟨by decide, claim6_amended_weight_counts_all_nonpad [2, 3] (by decide)⟩

/-- Claim C8: in the run trace of `main`, the base model is deleted and the
device cache emptied before the fine-tuned model is instantiated, and at no
prefix of the trace are both model instances resident. -/
theorem claim8_release_before_load :
    ((List.range (mainTrace.length + 1)).all
        (fun i => !((resident (mainTrace.take i)).1 && (resident (mainTrace.take i)).2))) = true ∧
    mainTrace.indexOf Ev.delBase < mainTrace.indexOf Ev.loadFinetuned ∧
    mainTrace.indexOf Ev.emptyCache < mainTrace.indexOf Ev.loadFinetuned := by
  decide

/-- Claim C9: the two scoring calls issued by `main` use the same tokenizer
(loaded from the base model path), the same record list, the same batch size
and the same maximum length, hence identical batch boundaries. -/
theorem claim9_identical_call_parameters (args : Args) (test_data : List EmailRecord) :
    (mainCalls args test_data).1.tokenizer_path = (mainCalls args test_data).2.tokenizer_path ∧
    (mainCalls args test_data).1.tokenizer_path = args.base_model ∧
    (mainCalls args test_data).1.data = (mainCalls args test_data).2.data ∧
    (mainCalls args test_data).1.batch_size = (mainCalls args test_data).2.batch_size ∧
    (mainCalls args test_data).1.max_length = (mainCalls args test_data).2.max_length ∧
    batches (mainCalls args test_data).1.data (mainCalls args test_data).1.batch_size =
      batches (mainCalls args test_data).2.data (mainCalls args test_data).2.batch_size :=
  ⟨rfl, rfl, rfl, rfl, rfl, rfl⟩

/-- Claim C10: a record whose `subject` (or `body`) key is present but bound
to JSON null renders as the literal text None, not as empty text, while an
absent key renders as empty text. -/
theorem claim10_null_renders_none :
    render (EmailRecord.mk (some PyVal.null) (some (PyVal.str "hello"))) =
        "Subject: None\n\nhello" ∧
    render (EmailRecord.mk (some (PyVal.str "hi")) (some PyVal.null)) =
        "Subject: hi\n\nNone" ∧
    render (EmailRecord.mk none (some (PyVal.str "hello"))) =
        "Subject: \n\nhello" :=
  ⟨rfl, rfl, rfl⟩

end EvalBeforeAfter
